import Mathlib

/-! Verification of the ESP32 quadrature-encoder / load-cell firmware
(`EncoderReader/encoder.cpp`, `ArduinoEncoderSketch/encoder.cpp`,
`ArduinoEncoderSketch/loadcell.cpp`).

Modelling conventions:
* `uint32_t` timestamps are `Nat` values; C's wrapping subtraction
  `a - b` on `uint32_t` is `u32sub a b = (a + 2^32 - b % 2^32) % 2^32`.
* `int32_t` / `int64_t` quantities are `Int`; the C `/` on signed
  integers (truncation toward zero) is `Int.tdiv`.
* `float` arithmetic is modelled exactly over `ℚ` (the spec's formulas
  are real-number formulas; the claims under study concern branch
  selection and algebraic form, not rounding).
* Interrupt handlers and the polled estimator run on a single core and
  never interleave inside the modelled critical sections, so each C
  function becomes a pure state-transformer.
-/

namespace Esp32Encoder

/-! Section: Configuration constants (`ArduinoEncoderSketch/config.h`) -/

def ENC_PPR : Nat := 1024

def SPEED_SAMPLE_US : Nat := 10000

def EMA_ALPHA : ℚ := 40 / 100

def MIN_EDGE_INTERVAL_US : Nat := 10

def VELOCITY_TIMEOUT_US : Nat := 500000

def HX711_READ_SAMPLES : Nat := 8

def FORCE_IIR_ALPHA : ℚ := 15 / 100

/-- Number of load-cell channels.  `loadcell.h` sizes every state array by
`NUM_LOADCELLS`; the two-element initializers in `loadcell.cpp`
(`{1000.0f, 1000.0f}`, …) fix it at 2. -/
def NUM_LOADCELLS : Nat := 2

/-! Section: Quadrature transition table
(`EncoderReader/encoder.cpp` lines 25-42, identical in
`ArduinoEncoderSketch/encoder.cpp` lines 15-32). Index is
`(old << 2) | new` where each state is `(A << 1) | B`. -/

def quadTable : Nat → Int
  | 0  => 0    -- 00 -> 00
  | 1  => 1    -- 00 -> 01
  | 2  => -1   -- 00 -> 10
  | 3  => 0    -- 00 -> 11 invalid skip
  | 4  => -1   -- 01 -> 00
  | 5  => 0    -- 01 -> 01
  | 6  => 0    -- 01 -> 10 invalid
  | 7  => 1    -- 01 -> 11
  | 8  => 1    -- 10 -> 00
  | 9  => 0    -- 10 -> 01 invalid
  | 10 => 0    -- 10 -> 10
  | 11 => -1   -- 10 -> 11
  | 12 => 0    -- 11 -> 00 invalid
  | 13 => -1   -- 11 -> 01
  | 14 => 1    -- 11 -> 10
  | 15 => 0    -- 11 -> 11
  | _  => 0

/-- Wrapping `uint32_t` subtraction `a - b`. -/
def u32sub (a b : Nat) : Nat := (a + 2 ^ 32 - b % 2 ^ 32) % 2 ^ 32

/-- The 2-bit phase state `(a << 1) | b` formed by the ISR from the two
phase lines. -/
def abState (a b : Bool) : Nat := 2 * (cond a 1 0) + (cond b 1 0)

/-- Does the 2-bit state change `a → b` flip exactly one phase bit?
(`xor` of the two states is `01` or `10`.) -/
def oneBitChange (a b : Nat) : Bool :=
  ((a % 4) ^^^ (b % 4)) == 1 || ((a % 4) ^^^ (b % 4)) == 2

/-- Forward step of the standard x4 quadrature Gray cycle
`00 → 01 → 11 → 10 → 00` (with state = `(A << 1) | B`); used to express
"standard quadrature direction logic" from the spec. -/
def grayForward (o n : Nat) : Bool :=
  (o == 0 && n == 1) || (o == 1 && n == 3) || (o == 3 && n == 2) || (o == 2 && n == 0)

/-! Section: Software edge-decode state and ISR
(`EncoderReader/encoder.cpp` lines 4-9 and 126-148). -/

/-- The volatile encoder state written by the edge ISRs. -/
structure EncState where
  positionCounts : Int
  lastStateAB : Nat
  lastEdgeMicros : Nat
  edgeDeltaMicros : Nat
  lastDeltaSign : Int
  deriving Repr, DecidableEq

/-- Model of `updateFromAB_Fast` (`EncoderReader/encoder.cpp` lines 126-148): one
ISR invocation, given the current time `now` and the two sampled phase
lines `a`, `b`. -/
def updateFromAB_Fast (st : EncState) (now : Nat) (a b : Bool) : EncState :=
  let newState := abState a b
  let idx := (st.lastStateAB % 4) * 4 + newState
  let delta := quadTable idx
  if delta ≠ 0 then
    if MIN_EDGE_INTERVAL_US ≤ u32sub now st.lastEdgeMicros then
      { positionCounts := st.positionCounts + delta
        lastStateAB := newState
        lastEdgeMicros := now % 2 ^ 32
        edgeDeltaMicros := u32sub now st.lastEdgeMicros
        lastDeltaSign := if 0 < delta then 1 else -1 }
    else
      { st with lastStateAB := newState }
  else
    { st with lastStateAB := newState }

/-! Section: Transition-table walks (for the algebraic table properties)

`updateFromAB` (`ArduinoEncoderSketch/encoder.cpp` lines 38-51) applies
`quadTable` to each consecutive pair of 2-bit states with no glitch
filtering, so the position component of a run of that ISR over the state
sequence `s₀, s₁, …` is the fold below. -/

/-- Position after running the table decoder along a sequence of 2-bit
states (each consecutive pair is one decoded transition). -/
def runPath (p : Int) : List Nat → Int
  | a :: b :: rest => runPath (p + quadTable ((a % 4) * 4 + b % 4)) (b :: rest)
  | _ => p

/-- The per-transition signed deltas of a state sequence. -/
def pairDeltas : List Nat → List Int
  | a :: b :: rest => quadTable ((a % 4) * 4 + b % 4) :: pairDeltas (b :: rest)
  | _ => []

/-- Every consecutive pair of the sequence changes exactly one phase bit. -/
def singleBitPath : List Nat → Bool
  | a :: b :: rest => oneBitChange a b && singleBitPath (b :: rest)
  | _ => true

end Esp32Encoder

namespace Esp32Encoder

/-! Section: Helper lemmas for the table walks -/

lemma quadTable_antisymm (a b : Nat) :
    quadTable ((a % 4) * 4 + b % 4) = -quadTable ((b % 4) * 4 + a % 4) := by
  have ha : a % 4 = 0 ∨ a % 4 = 1 ∨ a % 4 = 2 ∨ a % 4 = 3 := by omega
  have hb : b % 4 = 0 ∨ b % 4 = 1 ∨ b % 4 = 2 ∨ b % 4 = 3 := by omega
  rcases ha with h | h | h | h <;> rcases hb with h' | h' | h' | h' <;>
    rw [h, h'] <;> decide

lemma runPath_eq_add_sum (p : Int) (l : List Nat) :
    runPath p l = p + (pairDeltas l).sum := by
  induction l generalizing p with
  | nil => simp [runPath, pairDeltas]
  | cons a t ih =>
    cases t with
    | nil => simp [runPath, pairDeltas]
    | cons b r =>
      rw [runPath, pairDeltas, List.sum_cons, ih]
      ring

lemma runPath_append_singleton (l : List Nat) (p : Int) (a : Nat) :
    runPath p (l ++ [a]) =
      runPath p l +
        (match l.getLast? with
         | some x => quadTable ((x % 4) * 4 + a % 4)
         | none => 0) := by
  induction l generalizing p with
  | nil => simp [runPath]
  | cons x t ih =>
    cases t with
    | nil => simp [runPath]
    | cons y r =>
      have h1 : (x :: y :: r) ++ [a] = x :: y :: (r ++ [a]) := by simp
      rw [h1]
      rw [show runPath p (x :: y :: (r ++ [a])) =
            runPath (p + quadTable ((x % 4) * 4 + y % 4)) (y :: (r ++ [a])) from rfl]
      rw [show runPath p (x :: y :: r) =
            runPath (p + quadTable ((x % 4) * 4 + y % 4)) (y :: r) from rfl]
      rw [← List.cons_append, ih, List.getLast?_cons_cons]

lemma getLast?_reverse_cons (a : Nat) (l : List Nat) :
    ((a :: l).reverse).getLast? = some a := by
  rw [List.getLast?_reverse]
  rfl

lemma runPath_reverse_cancel (l : List Nat) (p : Int) (a : Nat) :
    runPath (runPath p (a :: l)) (a :: l).reverse = p := by
  induction l generalizing p a with
  | nil => simp [runPath]
  | cons b t ih =>
    have hrev : (a :: b :: t).reverse = (b :: t).reverse ++ [a] := by
      simp
    rw [hrev, runPath_append_singleton, getLast?_reverse_cons]
    show runPath (runPath (p + quadTable ((a % 4) * 4 + b % 4)) (b :: t))
          ((b :: t).reverse) + quadTable ((b % 4) * 4 + a % 4) = p
    rw [ih, quadTable_antisymm a b]
    ring

end Esp32Encoder

namespace Esp32Encoder

/-- C1. The quadrature decode step maps every `(old,new)` 2-bit state
pair through the fixed 16-entry table `quadTable`: a pair that flips
exactly one phase bit yields `+1` when it follows the Gray cycle
`00→01→11→10→00` forward and `-1` when it runs it backward (standard
quadrature direction logic), and a pair that is unchanged or flips both
bits yields `0`; consequently `updateFromAB_Fast` leaves the position
counter unchanged on every such zero-delta transition. -/
theorem quadTable_standard_quadrature :
    (∀ o n : Fin 4,
      (oneBitChange o.val n.val = true →
        quadTable (o.val * 4 + n.val) =
          (if grayForward o.val n.val then 1 else -1) ∧
        (quadTable (o.val * 4 + n.val) = 1 ∨ quadTable (o.val * 4 + n.val) = -1)) ∧
      (oneBitChange o.val n.val = false → quadTable (o.val * 4 + n.val) = 0)) ∧
    (∀ (st : EncState) (now : Nat) (a b : Bool),
      quadTable ((st.lastStateAB % 4) * 4 + abState a b) = 0 →
      (updateFromAB_Fast st now a b).positionCounts = st.positionCounts) := by
  constructor
  · decide
  · intro st now a b h
    simp [updateFromAB_Fast, h]

/-- Witness for `quadTable_standard_quadrature` at concrete inputs:
the transition `00 → 01` flips one bit and decodes to `+1`; the
simultaneous-both-bits transition `00 → 11` decodes to `0` and leaves
the position counter of a concrete ISR state unchanged. -/
theorem quadTable_standard_quadrature_witness :
    quadTable ((0 : Fin 4).val * 4 + (1 : Fin 4).val) = 1 ∧
    (updateFromAB_Fast ⟨7, 0, 0, 0, 1⟩ 100 true true).positionCounts = 7 := by
  refine ⟨?_, ?_⟩
  · have h := (quadTable_standard_quadrature.1 (0 : Fin 4) (1 : Fin 4)).1 (by decide)
    exact h.1.trans (by decide)
  · exact quadTable_standard_quadrature.2 ⟨7, 0, 0, 0, 1⟩ 100 true true (by decide)

/-- C2. For any single-bit-at-a-time sequence of quadrature states,
the total position change of the table decoder equals the sum of the
per-transition signed table deltas, and running the reversed sequence of
transitions from the end state returns the position to its starting
value (the table is antisymmetric under swapping old and new state). -/
theorem runPath_sum_and_reverse (p : Int) (path : List Nat)
    (hpath : singleBitPath path = true) :
    runPath p path = p + (pairDeltas path).sum ∧
    runPath (runPath p path) path.reverse = p ∧
    (∀ a b : Fin 4, quadTable (a.val * 4 + b.val) = -quadTable (b.val * 4 + a.val)) := by
  refine ⟨runPath_eq_add_sum p path, ?_, by decide⟩
  cases path with
  | nil => simp [runPath]
  | cons a t => exact runPath_reverse_cancel t p a

/-- Witness for `runPath_sum_and_reverse`: the single-bit path
`00 → 01 → 11 → 10` advances the position by the sum of its deltas
(`+3`) and the reversed path brings it back to the start. -/
theorem runPath_sum_and_reverse_witness :
    singleBitPath [0, 1, 3, 2] = true ∧
    runPath 5 [0, 1, 3, 2] = 5 + (pairDeltas [0, 1, 3, 2]).sum ∧
    runPath (runPath 5 [0, 1, 3, 2]) ([0, 1, 3, 2] : List Nat).reverse = 5 := by
  have h := runPath_sum_and_reverse 5 [0, 1, 3, 2] (by decide)
  exact ⟨by decide, h.1, h.2.1⟩

/-- C3. In the software edge-decode variant, an otherwise-valid edge
(nonzero table delta) arriving within `MIN_EDGE_INTERVAL_US` of the
previous accepted edge is dropped: only `lastStateAB` is updated, while
the position counter, edge interval, direction sign and accepted-edge
timestamp are untouched.  In particular, of two otherwise-valid edges
closer together than the glitch interval, only the first changes the
position, and the second also leaves the edge interval and direction
sign unchanged. -/
theorem glitch_filter_drops_second_edge (st : EncState) (now now2 : Nat)
    (a b a2 b2 : Bool) :
    (quadTable ((st.lastStateAB % 4) * 4 + abState a b) ≠ 0 →
     u32sub now st.lastEdgeMicros < MIN_EDGE_INTERVAL_US →
     updateFromAB_Fast st now a b = { st with lastStateAB := abState a b }) ∧
    (quadTable ((st.lastStateAB % 4) * 4 + abState a b) ≠ 0 →
     MIN_EDGE_INTERVAL_US ≤ u32sub now st.lastEdgeMicros →
     u32sub now2 now < MIN_EDGE_INTERVAL_US →
     (updateFromAB_Fast st now a b).positionCounts =
       st.positionCounts + quadTable ((st.lastStateAB % 4) * 4 + abState a b) ∧
     (updateFromAB_Fast (updateFromAB_Fast st now a b) now2 a2 b2).positionCounts =
       (updateFromAB_Fast st now a b).positionCounts ∧
     (updateFromAB_Fast (updateFromAB_Fast st now a b) now2 a2 b2).edgeDeltaMicros =
       (updateFromAB_Fast st now a b).edgeDeltaMicros ∧
     (updateFromAB_Fast (updateFromAB_Fast st now a b) now2 a2 b2).lastDeltaSign =
       (updateFromAB_Fast st now a b).lastDeltaSign) := by
  constructor
  · intro h1 h2
    have h2' : ¬ MIN_EDGE_INTERVAL_US ≤ u32sub now st.lastEdgeMicros :=
      Nat.not_le.mpr h2
    simp [updateFromAB_Fast, h1, h2']
  · intro h1 h2 h3
    have hst1 : updateFromAB_Fast st now a b =
        { positionCounts :=
            st.positionCounts + quadTable ((st.lastStateAB % 4) * 4 + abState a b)
          lastStateAB := abState a b
          lastEdgeMicros := now % 2 ^ 32
          edgeDeltaMicros := u32sub now st.lastEdgeMicros
          lastDeltaSign :=
            if 0 < quadTable ((st.lastStateAB % 4) * 4 + abState a b) then 1
            else -1 } := by
      simp [updateFromAB_Fast, h1, h2]
    rw [hst1]
    refine ⟨rfl, ?_⟩
    have hmod : u32sub now2 (now % 2 ^ 32) = u32sub now2 now := by
      unfold u32sub
      rw [Nat.mod_mod_of_dvd now (dvd_refl (2 ^ 32))]
    by_cases hd2 : quadTable ((abState a b % 4) * 4 + abState a2 b2) = 0
    · simp only [updateFromAB_Fast, hd2]
      rw [if_neg (by norm_num : ¬ (0 : Int) ≠ 0)]
      exact ⟨rfl, rfl, rfl⟩
    · have hglitch : ¬ MIN_EDGE_INTERVAL_US ≤ u32sub now2 (now % 2 ^ 32) := by
        rw [hmod]
        exact Nat.not_le.mpr h3
      simp only [updateFromAB_Fast]
      rw [if_pos hd2, if_neg hglitch]
      exact ⟨rfl, rfl, rfl⟩

/-- Witness for `glitch_filter_drops_second_edge`: from state `00` with
last accepted edge at t=100, a valid edge at t=105 (gap 5 < 10) is
dropped entirely, while a valid edge at t=150 is accepted (+1) and a
following valid edge at t=155 (gap 5 < 10) leaves the position at the
value set by the first. -/
theorem glitch_filter_drops_second_edge_witness :
    updateFromAB_Fast ⟨0, 0, 100, 0, 1⟩ 105 false true =
      { (⟨0, 0, 100, 0, 1⟩ : EncState) with lastStateAB := abState false true } ∧
    (updateFromAB_Fast ⟨0, 0, 100, 0, 1⟩ 150 false true).positionCounts =
      0 + quadTable ((0 % 4) * 4 + abState false true) ∧
    (updateFromAB_Fast (updateFromAB_Fast ⟨0, 0, 100, 0, 1⟩ 150 false true)
        155 true true).positionCounts =
      (updateFromAB_Fast ⟨0, 0, 100, 0, 1⟩ 150 false true).positionCounts := by
  refine ⟨?_, ?_, ?_⟩
  · exact (glitch_filter_drops_second_edge ⟨0, 0, 100, 0, 1⟩ 105 0 false true
      false false).1 (by decide) (by decide)
  · exact ((glitch_filter_drops_second_edge ⟨0, 0, 100, 0, 1⟩ 150 155 false true
      true true).2 (by decide) (by decide) (by decide)).1
  · exact ((glitch_filter_drops_second_edge ⟨0, 0, 100, 0, 1⟩ 150 155 false true
      true true).2 (by decide) (by decide) (by decide)).2.1

end Esp32Encoder

namespace Esp32Encoder

/-! Section: Velocity estimator (`EncoderReader/encoder.cpp` lines 196-281)

The estimator's persistent state (`emaCountsPerSec`, `lastSamplePos`,
and the function-static `lastSample`) is `SpeedState`.  One executed
tick body (lines 202-270) is `speedTick`; its inputs are the snapshot
of the decoder's volatile fields taken in the critical section.  The
`hw` flag selects the `USE_HARDWARE_PCNT` compilation branch. -/

structure SpeedState where
  emaCountsPerSec : ℚ
  lastSamplePos : Int
  lastSample : Nat
  deriving Repr, DecidableEq

/-- Model of `cpsWindow` (lines 224-227): window-based counts/second. -/
def cpsWindowOf (st : SpeedState) (currentTime : Nat) (pos : Int) : ℚ :=
  let windowSec : ℚ := (u32sub currentTime st.lastSample : ℚ) / 1000000
  if 0 < windowSec then ((pos - st.lastSamplePos : Int) : ℚ) / windowSec else 0

/-- Model of `cpsEdge` (lines 230-236): signed edge-based counts/second, zero when
no edge interval is recorded or the last edge is older than the velocity
timeout. -/
def cpsEdgeOf (currentTime lastEdgeMicros edgeDelta : Nat) (deltaSign : Int) : ℚ :=
  if 0 < edgeDelta ∧ u32sub currentTime lastEdgeMicros < VELOCITY_TIMEOUT_US then
    1000000 / (edgeDelta : ℚ) * (deltaSign : ℚ)
  else 0

/-- Adaptive blending (lines 240-254, `ADAPTIVE_BLENDING` branch). -/
def blendAdaptive (w e : ℚ) : ℚ :=
  if |w| < 10 then w
  else if 1000 < |w| ∧ 0 < |e| then (7 / 10) * e + (3 / 10) * w
  else if w ≠ 0 ∧ e ≠ 0 then (1 / 2) * w + (1 / 2) * e
  else if w ≠ 0 then w else e

/-- The blended value actually fed to the EMA filter: adaptive blend (or
plain window speed under `USE_HARDWARE_PCNT`), then the velocity-timeout
override (lines 260-265, ISR mode only). -/
def tickBlended (hw : Bool) (st : SpeedState) (currentTime : Nat) (pos : Int)
    (edgeDelta lastEdgeMicros : Nat) (deltaSign : Int) : ℚ :=
  let w := cpsWindowOf st currentTime pos
  let raw :=
    if hw then w
    else blendAdaptive w (cpsEdgeOf currentTime lastEdgeMicros edgeDelta deltaSign)
  if ¬hw ∧ VELOCITY_TIMEOUT_US < u32sub currentTime lastEdgeMicros then 0 else raw

/-- One executed estimator tick body (`updateEncoderSpeed`, lines
202-270): EMA update and storage of the new "previous" position and
timestamp. -/
def speedTick (hw : Bool) (st : SpeedState) (currentTime : Nat) (pos : Int)
    (edgeDelta lastEdgeMicros : Nat) (deltaSign : Int) : SpeedState :=
  { emaCountsPerSec :=
      EMA_ALPHA * tickBlended hw st currentTime pos edgeDelta lastEdgeMicros deltaSign +
        (1 - EMA_ALPHA) * st.emaCountsPerSec
    lastSamplePos := pos
    lastSample := currentTime }

/-- Model of `getRPM` (lines 274-277). -/
def getRPM (st : SpeedState) : ℚ := st.emaCountsPerSec / (ENC_PPR : ℚ) * 60

end Esp32Encoder

namespace Esp32Encoder

/-- C4. If no edge has been accepted within the velocity-timeout
window at an estimator tick, the blended speed for that tick is forced
to `0` regardless of the window and edge estimates, so the tick
multiplies the smoothed value (and hence `getRPM`) by `1 - EMA_ALPHA`
independently of its prior value; under sustained timeout the smoothed
value `(1 - EMA_ALPHA)^n · ema₀` converges to `0`. -/
theorem velocity_timeout_forces_zero (st : SpeedState) (currentTime : Nat)
    (pos : Int) (edgeDelta lastEdgeMicros : Nat) (deltaSign : Int)
    (h : VELOCITY_TIMEOUT_US < u32sub currentTime lastEdgeMicros) :
    tickBlended false st currentTime pos edgeDelta lastEdgeMicros deltaSign = 0 ∧
    (speedTick false st currentTime pos edgeDelta lastEdgeMicros
        deltaSign).emaCountsPerSec = (1 - EMA_ALPHA) * st.emaCountsPerSec ∧
    getRPM (speedTick false st currentTime pos edgeDelta lastEdgeMicros deltaSign) =
      (1 - EMA_ALPHA) * getRPM st ∧
    (∀ ε : ℚ, 0 < ε → ∃ n : ℕ, |(1 - EMA_ALPHA) ^ n * st.emaCountsPerSec| < ε) := by
  have hb : tickBlended false st currentTime pos edgeDelta lastEdgeMicros deltaSign = 0 := by
    simp [tickBlended, h]
  refine ⟨hb, ?_, ?_, ?_⟩
  · rw [speedTick, hb]
    ring_nf
  · rw [getRPM, speedTick, hb, getRPM]
    ring_nf
  · intro ε hε
    set q := st.emaCountsPerSec with hq
    have halpha : (0 : ℚ) ≤ 1 - EMA_ALPHA := by norm_num [EMA_ALPHA]
    have hlt1 : (1 - EMA_ALPHA : ℚ) < 1 := by norm_num [EMA_ALPHA]
    have hpos : (0 : ℚ) < ε / (|q| + 1) := by positivity
    obtain ⟨n, hn⟩ := exists_pow_lt_of_lt_one hpos hlt1
    refine ⟨n, ?_⟩
    have habs : |(1 - EMA_ALPHA) ^ n * q| = (1 - EMA_ALPHA) ^ n * |q| := by
      rw [abs_mul, abs_pow, abs_of_nonneg halpha]
    rw [habs]
    calc (1 - EMA_ALPHA) ^ n * |q|
        ≤ (1 - EMA_ALPHA) ^ n * (|q| + 1) := by
          have := pow_nonneg halpha n
          nlinarith [abs_nonneg q]
      _ < ε / (|q| + 1) * (|q| + 1) := by
          have hq1 : (0 : ℚ) < |q| + 1 := by positivity
          exact mul_lt_mul_of_pos_right hn hq1
      _ = ε := div_mul_cancel₀ ε (by positivity)

/-- Witness for `velocity_timeout_forces_zero`: at t=600001 with the last
edge at t=0 (elapsed 600001 µs > 500000 µs timeout), a tick from
smoothed value 10 produces blended 0 and smoothed value
`(1 - EMA_ALPHA) * 10 = 6`. -/
theorem velocity_timeout_forces_zero_witness :
    tickBlended false ⟨10, 0, 0⟩ 600001 0 100 0 1 = 0 ∧
    (speedTick false ⟨10, 0, 0⟩ 600001 0 100 0 1).emaCountsPerSec =
      (1 - EMA_ALPHA) * 10 := by
  have h := velocity_timeout_forces_zero ⟨10, 0, 0⟩ 600001 0 100 0 1 (by decide)
  exact ⟨h.1, h.2.1⟩

/-- C5. At every estimator tick the blended speed is chosen
adaptively from the window and edge estimates: below the low-speed
threshold the window speed alone is used; above the high-speed threshold
with an available edge estimate, `0.7·edge + 0.3·window`; otherwise the
50/50 blend, falling back to the window speed when the edge estimate is
exactly zero; under the hardware-PCNT variant (no edge timing) the blend
is the window speed unconditionally; and absent the timeout override the
value fed to the EMA is exactly this adaptive blend. -/
theorem adaptive_blend_selection (w e : ℚ) (st : SpeedState) (currentTime : Nat)
    (pos : Int) (edgeDelta lastEdgeMicros : Nat) (deltaSign : Int) :
    (|w| < 10 → blendAdaptive w e = w) ∧
    (¬ |w| < 10 → 1000 < |w| → e ≠ 0 →
      blendAdaptive w e = (7 / 10) * e + (3 / 10) * w) ∧
    (¬ |w| < 10 → ¬ (1000 < |w| ∧ e ≠ 0) → w ≠ 0 → e ≠ 0 →
      blendAdaptive w e = (1 / 2) * w + (1 / 2) * e) ∧
    (¬ |w| < 10 → ¬ (1000 < |w| ∧ e ≠ 0) → w ≠ 0 → e = 0 →
      blendAdaptive w e = w) ∧
    (tickBlended true st currentTime pos edgeDelta lastEdgeMicros deltaSign =
      cpsWindowOf st currentTime pos) ∧
    (¬ VELOCITY_TIMEOUT_US < u32sub currentTime lastEdgeMicros →
      tickBlended false st currentTime pos edgeDelta lastEdgeMicros deltaSign =
        blendAdaptive (cpsWindowOf st currentTime pos)
          (cpsEdgeOf currentTime lastEdgeMicros edgeDelta deltaSign)) := by
  refine ⟨?_, ?_, ?_, ?_, ?_, ?_⟩
  · intro h1
    simp [blendAdaptive, h1]
  · intro h1 h2 h3
    have he : 0 < |e| := abs_pos.mpr h3
    simp [blendAdaptive, h1, h2, he]
  · intro h1 h2 h3 h4
    have hnot : ¬ 1000 < |w| := fun hgt => h2 ⟨hgt, h4⟩
    simp [blendAdaptive, h1, hnot, h3, h4]
  · intro h1 h2 h3 h4
    have h2' : ¬ (1000 < |w| ∧ 0 < |e|) := by
      rw [abs_pos]
      exact h2
    simp [blendAdaptive, h1, h2', h3, h4]
  · simp [tickBlended]
  · intro h
    simp [tickBlended, h]

/-- Witness for `adaptive_blend_selection`: at window speed 500 and edge
speed 20 (medium-speed regime) the blend is the 50/50 average, and under
the hardware-PCNT variant the blend equals the window speed. -/
theorem adaptive_blend_selection_witness :
    blendAdaptive 500 20 = (1 / 2) * 500 + (1 / 2) * 20 ∧
    tickBlended true ⟨0, 0, 0⟩ 10000 3 0 0 1 = cpsWindowOf ⟨0, 0, 0⟩ 10000 3 := by
  constructor
  · exact (adaptive_blend_selection 500 20 ⟨0, 0, 0⟩ 0 0 0 0 1).2.2.1
      (by norm_num) (by norm_num) (by norm_num) (by norm_num)
  · exact (adaptive_blend_selection 500 20 ⟨0, 0, 0⟩ 10000 3 0 0 1).2.2.2.2.1

end Esp32Encoder

namespace Esp32Encoder

/-! Section: Load-cell sampler (`ArduinoEncoderSketch/loadcell.cpp`)

The per-channel parallel arrays (`hx711ScaleCountsPerKg`, `hx711Offset`,
`hx711Tared`, `filteredForceKg`, `lastHxRaw`, `lastForceUpdateUs`,
`hxAccum`, `hxCount`) become one record per channel; the sampler state
is a map from channel index to that record. -/

structure LCChannel where
  hx711ScaleCountsPerKg : ℚ
  hx711Offset : Int
  hx711Tared : Bool
  filteredForceKg : ℚ
  lastHxRaw : Int
  lastForceUpdateUs : Nat
  hxAccum : Int
  hxCount : Nat
  deriving Repr, DecidableEq

abbrev LCState := Fin NUM_LOADCELLS → LCChannel

/-- The 24-pulse MSB-first shift-in (`loadcell.cpp` lines 47-52):
`value = (value << 1) | bit` for each sampled data-line bit. -/
def shiftIn24 (bits : List Bool) : Nat :=
  bits.foldl (fun value b => 2 * value + cond b 1 0) 0

/-- Sign extension of the 24-bit two's-complement sample (lines 59-60):
`if (value & 0x800000) value |= 0xFF000000; (int32_t)value`. -/
def signExtend24 (value : Nat) : Int :=
  let v : Nat := value % 2 ^ 24
  let w : Nat := if 2 ^ 23 ≤ v then v ||| 0xFF000000 else v
  if w < 2 ^ 31 then (w : Int) else (w : Int) - 2 ^ 32

/-- Acquisition of one ready sample (lines 41-63): accumulate the signed
value and bump the sample count. -/
def sampleChannel (c : LCChannel) (bits : List Bool) : LCChannel :=
  { c with
    hxAccum := c.hxAccum + signExtend24 (shiftIn24 bits)
    hxCount := c.hxCount + 1 }

/-- The flush step (lines 66-85): average, auto-tare on first flush,
scale to kilograms, IIR filter, reset the accumulator. -/
def flushChannel (c : LCChannel) (currentTime : Nat) : LCChannel :=
  if 0 < c.hxCount then
    let avgRaw : Int := Int.tdiv c.hxAccum (c.hxCount : Int)
    let offset' := if c.hx711Tared then c.hx711Offset else avgRaw
    let diff := avgRaw - offset'
    let instKg : ℚ :=
      if 0 < c.hx711ScaleCountsPerKg then (diff : ℚ) / c.hx711ScaleCountsPerKg else 0
    { c with
      lastHxRaw := avgRaw
      hx711Offset := offset'
      hx711Tared := true
      filteredForceKg :=
        FORCE_IIR_ALPHA * instKg + (1 - FORCE_IIR_ALPHA) * c.filteredForceKg
      lastForceUpdateUs := currentTime
      hxAccum := 0
      hxCount := 0 }
  else
    { c with hxAccum := 0, hxCount := 0 }

/-- Model of `updateLoadCell` (lines 36-86): guard the channel index, acquire one
sample when the data line is ready, then flush when the oversampling
target or the 100 ms timeout is reached. -/
def updateLoadCell (st : LCState) (cellIndex : Nat) (currentTime : Nat)
    (dataReady : Bool) (bits : List Bool) : LCState :=
  if h : cellIndex < NUM_LOADCELLS then
    let i : Fin NUM_LOADCELLS := ⟨cellIndex, h⟩
    let c1 := if dataReady then sampleChannel (st i) bits else st i
    let c2 :=
      if HX711_READ_SAMPLES ≤ c1.hxCount ∨
          100000 < u32sub currentTime c1.lastForceUpdateUs then
        flushChannel c1 currentTime
      else c1
    Function.update st i c2
  else st

/-- Model of `tareLoadCell` (lines 88-93). -/
def tareLoadCell (st : LCState) (cellIndex : Nat) : LCState :=
  if h : cellIndex < NUM_LOADCELLS then
    let i : Fin NUM_LOADCELLS := ⟨cellIndex, h⟩
    Function.update st i
      { st i with hx711Offset := (st i).lastHxRaw, hx711Tared := true }
  else st

/-- Model of `calibrateLoadCell` (lines 95-104). -/
def calibrateLoadCell (st : LCState) (cellIndex : Nat) (knownWeightKg : ℚ) : LCState :=
  if h : cellIndex < NUM_LOADCELLS then
    if 0 < knownWeightKg then
      let i : Fin NUM_LOADCELLS := ⟨cellIndex, h⟩
      Function.update st i
        { st i with
          hx711ScaleCountsPerKg :=
            (((st i).lastHxRaw - (st i).hx711Offset : Int) : ℚ) / knownWeightKg }
    else st
  else st

/-- Model of `getForceKg` (lines 106-109). -/
def getForceKg (st : LCState) (cellIndex : Nat) : ℚ :=
  if h : cellIndex < NUM_LOADCELLS then (st ⟨cellIndex, h⟩).filteredForceKg else 0

/-- Model of `getRawReading` (lines 111-114). -/
def getRawReading (st : LCState) (cellIndex : Nat) : Int :=
  if h : cellIndex < NUM_LOADCELLS then (st ⟨cellIndex, h⟩).lastHxRaw else 0

/-- Model of `getScaleFactor` (lines 116-119). -/
def getScaleFactor (st : LCState) (cellIndex : Nat) : ℚ :=
  if h : cellIndex < NUM_LOADCELLS then (st ⟨cellIndex, h⟩).hx711ScaleCountsPerKg
  else 0

/-! Section: Index detector (`EncoderReader/encoder.cpp` lines 186-194 and
219-220). -/

/-- Model of the `isrZ` handler body, given the sampled Z-line level: latch the flag
on a high level (the interrupt fires on the rising edge). -/
def isrZ (zLevel : Bool) (indexFlag : Bool) : Bool :=
  if zLevel then true else indexFlag

/-- The poll inside the estimator tick (`zSeen = indexFlag; indexFlag =
false`): returns the reported value and the cleared flag. -/
def pollIndexFlag (indexFlag : Bool) : Bool × Bool := (indexFlag, false)

end Esp32Encoder

namespace Esp32Encoder

/-- C6. For every in-range channel, `calibrateLoadCell` with a
positive known weight sets the scale factor to
`(lastRaw − offset) / knownWeightKg` and changes nothing else on that
channel; with a non-positive weight the call is rejected and the whole
sampler state is unchanged, so the prior scale factor, offset, tared
flag and filtered force are all retained. -/
theorem calibrate_sets_scale_or_rejects (st : LCState) (cellIndex : Nat)
    (knownWeightKg : ℚ) (h : cellIndex < NUM_LOADCELLS) :
    (0 < knownWeightKg →
      getScaleFactor (calibrateLoadCell st cellIndex knownWeightKg) cellIndex =
        (((st ⟨cellIndex, h⟩).lastHxRaw - (st ⟨cellIndex, h⟩).hx711Offset : Int) : ℚ) /
          knownWeightKg ∧
      ((calibrateLoadCell st cellIndex knownWeightKg) ⟨cellIndex, h⟩).hx711Offset =
        (st ⟨cellIndex, h⟩).hx711Offset ∧
      ((calibrateLoadCell st cellIndex knownWeightKg) ⟨cellIndex, h⟩).hx711Tared =
        (st ⟨cellIndex, h⟩).hx711Tared ∧
      ((calibrateLoadCell st cellIndex knownWeightKg) ⟨cellIndex, h⟩).filteredForceKg =
        (st ⟨cellIndex, h⟩).filteredForceKg ∧
      ((calibrateLoadCell st cellIndex knownWeightKg) ⟨cellIndex, h⟩).lastHxRaw =
        (st ⟨cellIndex, h⟩).lastHxRaw) ∧
    (knownWeightKg ≤ 0 → calibrateLoadCell st cellIndex knownWeightKg = st) := by
  constructor
  · intro hw
    simp only [calibrateLoadCell, getScaleFactor, dif_pos h, if_pos hw,
      Function.update_same]
    simp
  · intro hw
    simp only [calibrateLoadCell, dif_pos h, if_neg (not_lt.mpr hw)]

/-- Witness for `calibrate_sets_scale_or_rejects`: with `lastRaw = 5000`,
`offset = 0`, calibrating channel 0 with 10 kg sets the scale factor to
500, while calibrating with weight `-1` leaves the state untouched. -/
theorem calibrate_sets_scale_or_rejects_witness :
    getScaleFactor
        (calibrateLoadCell (fun _ => ⟨1000, 0, true, 0, 5000, 0, 0, 0⟩) 0 10) 0 =
      ((5000 - 0 : Int) : ℚ) / 10 ∧
    calibrateLoadCell (fun _ => ⟨1000, 0, true, 0, 5000, 0, 0, 0⟩) 0 (-1) =
      (fun _ => ⟨1000, 0, true, 0, 5000, 0, 0, 0⟩) := by
  constructor
  · have h6 := calibrate_sets_scale_or_rejects
      (fun _ => (⟨1000, 0, true, 0, 5000, 0, 0, 0⟩ : LCChannel)) 0 10 (by decide)
    exact (h6.1 (by norm_num)).1
  · have h6 := calibrate_sets_scale_or_rejects
      (fun _ => (⟨1000, 0, true, 0, 5000, 0, 0, 0⟩ : LCChannel)) 0 (-1) (by decide)
    exact h6.2 (by norm_num)

/-- C7. For every out-of-range channel index, every load-cell
operation is safe and mutation-free: the accessors return 0, and the
sampler update, tare and calibrate return the state unchanged. -/
theorem out_of_range_channel_safe (st : LCState) (cellIndex currentTime : Nat)
    (dataReady : Bool) (bits : List Bool) (knownWeightKg : ℚ)
    (h : NUM_LOADCELLS ≤ cellIndex) :
    getForceKg st cellIndex = 0 ∧
    getRawReading st cellIndex = 0 ∧
    getScaleFactor st cellIndex = 0 ∧
    updateLoadCell st cellIndex currentTime dataReady bits = st ∧
    tareLoadCell st cellIndex = st ∧
    calibrateLoadCell st cellIndex knownWeightKg = st := by
  have h' : ¬ cellIndex < NUM_LOADCELLS := Nat.not_lt.mpr h
  refine ⟨?_, ?_, ?_, ?_, ?_, ?_⟩ <;>
    simp only [getForceKg, getRawReading, getScaleFactor, updateLoadCell,
      tareLoadCell, calibrateLoadCell, dif_neg h']

/-- Witness for `out_of_range_channel_safe` at the concrete out-of-range
index 2 (the channels are 0 and 1). -/
theorem out_of_range_channel_safe_witness :
    getForceKg (fun _ => ⟨1000, 0, false, 3, 0, 0, 0, 0⟩) 2 = 0 ∧
    tareLoadCell (fun _ => ⟨1000, 0, false, 3, 0, 0, 0, 0⟩) 2 =
      (fun _ => ⟨1000, 0, false, 3, 0, 0, 0, 0⟩) := by
  have h := out_of_range_channel_safe (fun _ => ⟨1000, 0, false, 3, 0, 0, 0, 0⟩)
    2 0 false [] 1 (by decide)
  exact ⟨h.1, h.2.2.2.2.1⟩

/-- C8. Load-cell channels are isolated: a sampler update, tare or
calibrate on an in-range channel `i` leaves the whole per-channel record
of every other channel `j ≠ i` unchanged, and in particular the
`getForceKg`, `getRawReading` and `getScaleFactor` observables of `j`
are unchanged. -/
theorem loadcell_channel_isolation (st : LCState) (i j currentTime : Nat)
    (dataReady : Bool) (bits : List Bool) (knownWeightKg : ℚ)
    (hi : i < NUM_LOADCELLS) (hj : j < NUM_LOADCELLS) (hne : j ≠ i) :
    (updateLoadCell st i currentTime dataReady bits) ⟨j, hj⟩ = st ⟨j, hj⟩ ∧
    (tareLoadCell st i) ⟨j, hj⟩ = st ⟨j, hj⟩ ∧
    (calibrateLoadCell st i knownWeightKg) ⟨j, hj⟩ = st ⟨j, hj⟩ ∧
    getForceKg (updateLoadCell st i currentTime dataReady bits) j =
      getForceKg st j ∧
    getRawReading (updateLoadCell st i currentTime dataReady bits) j =
      getRawReading st j ∧
    getScaleFactor (updateLoadCell st i currentTime dataReady bits) j =
      getScaleFactor st j ∧
    getForceKg (tareLoadCell st i) j = getForceKg st j ∧
    getForceKg (calibrateLoadCell st i knownWeightKg) j = getForceKg st j := by
  have hfin : (⟨j, hj⟩ : Fin NUM_LOADCELLS) ≠ ⟨i, hi⟩ := by
    simp [Fin.ext_iff, hne]
  have hupd : (updateLoadCell st i currentTime dataReady bits) ⟨j, hj⟩ = st ⟨j, hj⟩ := by
    simp only [updateLoadCell, dif_pos hi]
    exact Function.update_noteq hfin _ _
  have htare : (tareLoadCell st i) ⟨j, hj⟩ = st ⟨j, hj⟩ := by
    simp only [tareLoadCell, dif_pos hi]
    exact Function.update_noteq hfin _ _
  have hcal : (calibrateLoadCell st i knownWeightKg) ⟨j, hj⟩ = st ⟨j, hj⟩ := by
    simp only [calibrateLoadCell, dif_pos hi]
    split
    · exact Function.update_noteq hfin _ _
    · rfl
  refine ⟨hupd, htare, hcal, ?_, ?_, ?_, ?_, ?_⟩ <;>
    simp only [getForceKg, getRawReading, getScaleFactor, dif_pos hj, hupd,
      htare, hcal]

/-- Witness for `loadcell_channel_isolation`: tare on channel 0 leaves
channel 1's record (and its filtered force) unchanged. -/
theorem loadcell_channel_isolation_witness :
    (tareLoadCell (fun _ => ⟨1000, 7, false, 3, 42, 0, 0, 0⟩) 0) ⟨1, by decide⟩ =
      (⟨1000, 7, false, 3, 42, 0, 0, 0⟩ : LCChannel) ∧
    getForceKg (tareLoadCell (fun _ => ⟨1000, 7, false, 3, 42, 0, 0, 0⟩) 0) 1 =
      getForceKg (fun _ => ⟨1000, 7, false, 3, 42, 0, 0, 0⟩) 1 := by
  have h := loadcell_channel_isolation (fun _ => ⟨1000, 7, false, 3, 42, 0, 0, 0⟩)
    0 1 0 false [] 1 (by decide) (by decide) (by decide)
  exact ⟨h.2.1, h.2.2.2.2.2.2.1⟩

/-- C10. For every in-range channel, on the first flush ever
performed for that channel (tared flag still false, at least one sample
accumulated, flush condition met), the flush sets the offset equal to
the averaged raw value before computing the force, so the instantaneous
force of that flush is exactly 0 — the new filtered force is
`(1 − β) · previous` — and, the filtered force being 0 before the first
flush ever, `getForceKg` still returns 0 immediately afterwards. -/
theorem first_flush_absorbed_as_zero (st : LCState) (cellIndex currentTime : Nat)
    (h : cellIndex < NUM_LOADCELLS)
    (htared : (st ⟨cellIndex, h⟩).hx711Tared = false)
    (hcnt : 0 < (st ⟨cellIndex, h⟩).hxCount)
    (htrig : HX711_READ_SAMPLES ≤ (st ⟨cellIndex, h⟩).hxCount ∨
      100000 < u32sub currentTime (st ⟨cellIndex, h⟩).lastForceUpdateUs) :
    ((updateLoadCell st cellIndex currentTime false []) ⟨cellIndex, h⟩).hx711Offset =
      Int.tdiv (st ⟨cellIndex, h⟩).hxAccum ((st ⟨cellIndex, h⟩).hxCount : Int) ∧
    ((updateLoadCell st cellIndex currentTime false []) ⟨cellIndex, h⟩).lastHxRaw =
      Int.tdiv (st ⟨cellIndex, h⟩).hxAccum ((st ⟨cellIndex, h⟩).hxCount : Int) ∧
    ((updateLoadCell st cellIndex currentTime false []) ⟨cellIndex, h⟩).hx711Tared =
      true ∧
    ((updateLoadCell st cellIndex currentTime false []) ⟨cellIndex, h⟩).filteredForceKg =
      (1 - FORCE_IIR_ALPHA) * (st ⟨cellIndex, h⟩).filteredForceKg ∧
    ((st ⟨cellIndex, h⟩).filteredForceKg = 0 →
      getForceKg (updateLoadCell st cellIndex currentTime false []) cellIndex = 0) := by
  have hupd : updateLoadCell st cellIndex currentTime false [] =
      Function.update st ⟨cellIndex, h⟩
        (flushChannel (st ⟨cellIndex, h⟩) currentTime) := by
    simp only [updateLoadCell, dif_pos h, if_neg Bool.false_ne_true]
    rw [if_pos htrig]
  have hflush : flushChannel (st ⟨cellIndex, h⟩) currentTime =
      { st ⟨cellIndex, h⟩ with
        lastHxRaw := Int.tdiv (st ⟨cellIndex, h⟩).hxAccum
          ((st ⟨cellIndex, h⟩).hxCount : Int)
        hx711Offset := Int.tdiv (st ⟨cellIndex, h⟩).hxAccum
          ((st ⟨cellIndex, h⟩).hxCount : Int)
        hx711Tared := true
        filteredForceKg := (1 - FORCE_IIR_ALPHA) * (st ⟨cellIndex, h⟩).filteredForceKg
        lastForceUpdateUs := currentTime
        hxAccum := 0
        hxCount := 0 } := by
    simp only [flushChannel, if_pos hcnt, htared, Bool.false_eq_true, if_false,
      sub_self, Int.cast_zero, zero_div, ite_self]
    simp
  rw [hupd, Function.update_same, hflush]
  refine ⟨rfl, rfl, rfl, rfl, ?_⟩
  intro hzero
  simp only [getForceKg, dif_pos h, Function.update_same, hzero, mul_zero]

/-- Witness for `first_flush_absorbed_as_zero`: an untared channel with
accumulated sum 5000 over 4 samples, flushed by the 100 ms timeout at
t = 200000, takes offset 1250 and still reads a force of 0. -/
theorem first_flush_absorbed_as_zero_witness :
    ((updateLoadCell (fun _ => ⟨1000, 0, false, 0, 0, 0, 5000, 4⟩)
        0 200000 false []) ⟨0, by decide⟩).hx711Offset = Int.tdiv 5000 4 ∧
    getForceKg (updateLoadCell (fun _ => ⟨1000, 0, false, 0, 0, 0, 5000, 4⟩)
        0 200000 false []) 0 = 0 := by
  have h := first_flush_absorbed_as_zero
    (fun _ => ⟨1000, 0, false, 0, 0, 0, 5000, 4⟩) 0 200000 (by decide) rfl
    (by decide) (Or.inr (by decide))
  exact ⟨h.1, h.2.2.2.2 rfl⟩

end Esp32Encoder

namespace Esp32Encoder

/-! Section: Index-flag theorems -/

lemma foldl_isrZ (flag : Bool) (pulses : List Bool) :
    pulses.foldl (fun f z => isrZ z f) flag = (flag || pulses.any id) := by
  induction pulses generalizing flag with
  | nil => simp
  | cons z t ih =>
    rw [List.foldl_cons, ih, List.any_cons]
    cases z <;> cases flag <;> simp [isrZ]

lemma any_id_eq_false_of_all_not (l : List Bool)
    (h : l.all (fun z => !z) = true) : l.any id = false := by
  induction l with
  | nil => rfl
  | cons z t ih =>
    simp only [List.all_cons, Bool.and_eq_true] at h
    cases z
    · simp only [List.any_cons, id, Bool.false_or]
      exact ih h.2
    · simp at h

/-- C9. The index flag is latched by the Z-line rising-edge handler
and is returned and cleared exactly once per poll: after any number of
handler invocations within one polling interval, a single poll reports
whether at least one rising level was seen (at most one "seen" event per
interval, however many pulses occurred), the poll leaves the flag
cleared, and a subsequent poll reports false as long as no further
rising level reaches the handler. -/
theorem index_flag_reported_once_per_poll (flag : Bool) (pulses rest : List Bool) :
    (pollIndexFlag (pulses.foldl (fun f z => isrZ z f) flag)).1 =
      (flag || pulses.any id) ∧
    (pollIndexFlag (pulses.foldl (fun f z => isrZ z f) flag)).2 = false ∧
    (rest.all (fun z => !z) = true →
      (pollIndexFlag (rest.foldl (fun f z => isrZ z f)
        (pollIndexFlag (pulses.foldl (fun f z => isrZ z f) flag)).2)).1 = false) := by
  refine ⟨?_, rfl, ?_⟩
  · simp only [pollIndexFlag]
    exact foldl_isrZ flag pulses
  · intro hall
    simp only [pollIndexFlag, foldl_isrZ false rest, Bool.false_or]
    exact any_id_eq_false_of_all_not rest hall

/-- Witness for `index_flag_reported_once_per_poll`: three index pulses
inside one interval are reported as a single `true`; after the poll, an
interval with no rising level reports `false`. -/
theorem index_flag_reported_once_per_poll_witness :
    (pollIndexFlag (([true, true, true] : List Bool).foldl
      (fun f z => isrZ z f) false)).1 = (false || ([true, true, true].any id)) ∧
    (pollIndexFlag (([false, false] : List Bool).foldl (fun f z => isrZ z f)
      (pollIndexFlag (([true, true, true] : List Bool).foldl
        (fun f z => isrZ z f) false)).2)).1 = false := by
  have h := index_flag_reported_once_per_poll false [true, true, true] [false, false]
  exact ⟨h.1, h.2.2 (by decide)⟩

end Esp32Encoder
